import Mathlib

/-!
Formal model of the Address API microservice (`src/main.py`, `src/models/address.py`).

The service is a FastAPI CRUD app over a MySQL `addresses` table.  The parts
embedded here are the pure request/resource logic the claims are about:

* `compute_etag` (main.py 41-45): `json.dumps(resource, sort_keys=True, default=str)`
  followed by SHA-256, returned as lowercase hex.  JSON values are modelled by `J`
  (the resources the service hashes only contain strings, nulls, arrays and
  objects); `dumpsVal` reproduces CPython's `json.dumps` with `ensure_ascii=True`,
  default separators `", "` / `": "` and `sort_keys=True`; SHA-256 is implemented
  over `Nat` with explicit `% 2^32` (it models the external `hashlib.sha256`).
* the row/handler logic of `create/list/get/update/delete` with the database
  modelled as a list of rows (the storage engine is an external collaborator,
  reached only through the parameterized queries visible in the handlers).
-/

/-- JSON values as handled by the service's `json.dumps` calls: every resource the
service serializes for hashing is built from strings, `None`, lists and dicts. -/
inductive J where
  | null : J
  | str (s : String) : J
  | arr (elts : List J) : J
  | obj (fields : List (String × J)) : J

/-- Lowercase hexadecimal digit, as produced by Python's `'%04x'` formatting. -/
def hexDigitChar (d : Nat) : Char :=
  if d < 10 then Char.ofNat (48 + d) else Char.ofNat (87 + d)

/-- Four lowercase hex digits of `n`, most significant first (`'\u%04x'`). -/
def hex4 (n : Nat) : List Char :=
  [hexDigitChar (n / 4096 % 16), hexDigitChar (n / 256 % 16),
   hexDigitChar (n / 16 % 16), hexDigitChar (n % 16)]

/-- Escape one character the way CPython's `json.dumps` with `ensure_ascii=True`
does: `\"`, `\\`, the short control escapes, printable ASCII kept verbatim,
`\uXXXX` for the rest, with a surrogate pair for code points above `0xFFFF`. -/
def escChar (c : Char) : List Char :=
  if c = '"' then ['\\', '"']
  else if c = '\\' then ['\\', '\\']
  else if c = Char.ofNat 8 then ['\\', 'b']
  else if c = Char.ofNat 9 then ['\\', 't']
  else if c = Char.ofNat 10 then ['\\', 'n']
  else if c = Char.ofNat 12 then ['\\', 'f']
  else if c = Char.ofNat 13 then ['\\', 'r']
  else if 0x20 ≤ c.toNat ∧ c.toNat ≤ 0x7e then [c]
  else if c.toNat < 0x10000 then '\\' :: 'u' :: hex4 c.toNat
  else
    ('\\' :: 'u' :: hex4 (0xd800 ||| ((c.toNat - 0x10000) >>> 10 &&& 0x3ff))) ++
      ('\\' :: 'u' :: hex4 (0xdc00 ||| ((c.toNat - 0x10000) &&& 0x3ff)))

/-- Escape a whole character list (the body of a JSON string literal). -/
def escList : List Char → List Char
  | [] => []
  | c :: cs => escChar c ++ escList cs

/-- A JSON string literal: quote, escaped body, quote. -/
def renderStr (s : String) : List Char :=
  '"' :: (escList s.data ++ ['"'])

/-- `", ".join(entries)`, the default item separator of `json.dumps`. -/
def joinEntries : List (List Char) → List Char
  | [] => []
  | [e] => e
  | e :: es => e ++ ',' :: ' ' :: joinEntries es

/-- One `"key": value` object entry (default key separator `": "`). -/
def renderEntry (p : String × List Char) : List Char :=
  renderStr p.1 ++ ':' :: ' ' :: p.2

/-- `sort_keys=True`: object entries ordered by Python's `<` on the key strings.
Sorting the (key, rendered value) pairs commutes with rendering the values,
since the comparison only looks at the keys. -/
def sortPairs (l : List (String × List Char)) : List (String × List Char) :=
  l.mergeSort (fun a b => decide (a.1 ≤ b.1))

mutual
/-- `json.dumps(v, sort_keys=True)` as a character list.  Objects are wrapped in
braces (written via `Char.ofNat` 123/125), arrays in brackets. -/
def dumpsVal : J → List Char
  | .null => ['n', 'u', 'l', 'l']
  | .str s => renderStr s
  | .arr elts => '[' :: (joinEntries (dumpsElems elts) ++ [']'])
  | .obj fields =>
      Char.ofNat 123 ::
        (joinEntries ((sortPairs (dumpsFields fields)).map renderEntry) ++ [Char.ofNat 125])

/-- Render each array element. -/
def dumpsElems : List J → List (List Char)
  | [] => []
  | v :: vs => dumpsVal v :: dumpsElems vs

/-- Render each object value, keeping its key. -/
def dumpsFields : List (String × J) → List (String × List Char)
  | [] => []
  | p :: ps => (p.1, dumpsVal p.2) :: dumpsFields ps
end

/-- UTF-8 encoding of one character (`payload.encode("utf-8")`). -/
def utf8Char (c : Char) : List Nat :=
  let n := c.toNat
  if n < 0x80 then [n]
  else if n < 0x800 then [0xc0 + n / 64, 0x80 + n % 64]
  else if n < 0x10000 then [0xe0 + n / 4096, 0x80 + n / 64 % 64, 0x80 + n % 64]
  else [0xf0 + n / 262144, 0x80 + n / 4096 % 64, 0x80 + n / 64 % 64, 0x80 + n % 64]

/-- UTF-8 encoding of a character list. -/
def utf8Bytes (l : List Char) : List Nat :=
  l.foldr (fun c acc => utf8Char c ++ acc) []

/-! ### SHA-256 over `Nat` (model of `hashlib.sha256`) -/

/-- Right rotation of a 32-bit word. -/
def rotr (n x : Nat) : Nat := ((x >>> n) ||| (x <<< (32 - n))) % 2 ^ 32

/-- SHA-256 `Ch(e,f,g)`; complement is xor with the 32-bit mask. -/
def shaCh (e f g : Nat) : Nat := (e &&& f) ^^^ (((2 ^ 32 - 1) ^^^ e) &&& g)

/-- SHA-256 `Maj(a,b,c)`. -/
def shaMaj (a b c : Nat) : Nat := (a &&& b) ^^^ (a &&& c) ^^^ (b &&& c)

/-- SHA-256 big sigma 0. -/
def bsig0 (a : Nat) : Nat := rotr 2 a ^^^ rotr 13 a ^^^ rotr 22 a

/-- SHA-256 big sigma 1. -/
def bsig1 (e : Nat) : Nat := rotr 6 e ^^^ rotr 11 e ^^^ rotr 25 e

/-- SHA-256 small sigma 0. -/
def ssig0 (x : Nat) : Nat := rotr 7 x ^^^ rotr 18 x ^^^ (x >>> 3)

/-- SHA-256 small sigma 1. -/
def ssig1 (x : Nat) : Nat := rotr 17 x ^^^ rotr 19 x ^^^ (x >>> 10)

/-- The 64 SHA-256 round constants. -/
def shaK : List Nat :=
  [1116352408, 1899447441, 3049323471, 3921009573, 961987163, 1508970993,
   2453635748, 2870763221, 3624381080, 310598401, 607225278, 1426881987,
   1925078388, 2162078206, 2614888103, 3248222580, 3835390401, 4022224774,
   264347078, 604807628, 770255983, 1249150122, 1555081692, 1996064986,
   2554220882, 2821834349, 2952996808, 3210313671, 3336571891, 3584528711,
   113926993, 338241895, 666307205, 773529912, 1294757372, 1396182291,
   1695183700, 1986661051, 2177026350, 2456956037, 2730485921, 2820302411,
   3259730800, 3345764771, 3516065817, 3600352804, 4094571909, 275423344,
   430227734, 506948616, 659060556, 883997877, 958139571, 1322822218,
   1537002063, 1747873779, 1955562222, 2024104815, 2227730452, 2361852424,
   2428436474, 2756734187, 3204031479, 3329325298]

/-- The eight 32-bit working variables of SHA-256. -/
structure SHAState where
  a : Nat
  b : Nat
  c : Nat
  d : Nat
  e : Nat
  f : Nat
  g : Nat
  h : Nat

/-- SHA-256 initial hash value. -/
def shaInit : SHAState :=
  ⟨0x6a09e667, 0xbb67ae85, 0x3c6ef372, 0xa54ff53a, 0x510e527f, 0x9b05688c, 0x1f83d9ab, 0x5be0cd19⟩

/-- Pad a byte message: `0x80`, zeros, then the 64-bit big-endian bit length. -/
def padMsg (m : List Nat) : List Nat :=
  let L := m.length
  let zeros := (64 - (L + 9) % 64) % 64
  m ++ 0x80 :: (List.replicate zeros 0 ++
    [L * 8 / 2 ^ 56 % 256, L * 8 / 2 ^ 48 % 256, L * 8 / 2 ^ 40 % 256, L * 8 / 2 ^ 32 % 256,
     L * 8 / 2 ^ 24 % 256, L * 8 / 2 ^ 16 % 256, L * 8 / 2 ^ 8 % 256, L * 8 % 256])

/-- Big-endian 32-bit words from bytes. -/
def toWords : List Nat → List Nat
  | b1 :: b2 :: b3 :: b4 :: rest => (((b1 * 256 + b2) * 256 + b3) * 256 + b4) :: toWords rest
  | _ => []

/-- Split a byte list into 64-byte blocks. -/
def chunks64 (l : List Nat) : List (List Nat) :=
  if _hne : l = [] then [] else l.take 64 :: chunks64 (l.drop 64)
termination_by l.length
decreasing_by
  have hl : 0 < l.length := List.length_pos.mpr _hne
  simp only [List.length_drop]
  omega

/-- Extend the schedule by one word. -/
def schedStep (w : List Nat) : List Nat :=
  w ++ [(ssig1 (w.getD (w.length - 2) 0) + w.getD (w.length - 7) 0 +
         ssig0 (w.getD (w.length - 15) 0) + w.getD (w.length - 16) 0) % 2 ^ 32]

/-- Message schedule: the 16 block words extended to 64. -/
def schedule (block : List Nat) : List Nat := Nat.iterate schedStep 48 block

/-- One compression round, consuming a `(K[t], W[t])` pair. -/
def roundStep (st : SHAState) (kw : Nat × Nat) : SHAState :=
  let t1 := (st.h + bsig1 st.e + shaCh st.e st.f st.g + kw.1 + kw.2) % 2 ^ 32
  let t2 := (bsig0 st.a + shaMaj st.a st.b st.c) % 2 ^ 32
  ⟨(t1 + t2) % 2 ^ 32, st.a, st.b, st.c, (st.d + t1) % 2 ^ 32, st.e, st.f, st.g⟩

/-- Add the round output back into the incoming state, word-wise mod `2^32`. -/
def finalAdd (st t : SHAState) : SHAState :=
  ⟨(st.a + t.a) % 2 ^ 32, (st.b + t.b) % 2 ^ 32, (st.c + t.c) % 2 ^ 32, (st.d + t.d) % 2 ^ 32,
   (st.e + t.e) % 2 ^ 32, (st.f + t.f) % 2 ^ 32, (st.g + t.g) % 2 ^ 32, (st.h + t.h) % 2 ^ 32⟩

/-- Compress one 16-word block into the running state. -/
def compressBlock (st : SHAState) (block : List Nat) : SHAState :=
  finalAdd st ((shaK.zip (schedule block)).foldl roundStep st)

/-- Final SHA-256 state of a byte message. -/
def sha256Words (msg : List Nat) : SHAState :=
  ((chunks64 (padMsg msg)).map toWords).foldl compressBlock shaInit

/-- The eight state words combined big-endian into one number (`digest()`). -/
def digestOfState (s : SHAState) : Nat :=
  ((((((s.a * 2 ^ 32 + s.b) * 2 ^ 32 + s.c) * 2 ^ 32 + s.d) * 2 ^ 32 + s.e) * 2 ^ 32 + s.f) *
      2 ^ 32 + s.g) * 2 ^ 32 + s.h

/-- The 256-bit digest as a natural number. -/
def sha256Nat (msg : List Nat) : Nat := digestOfState (sha256Words msg)

/-- `hexdigest()`: 64 lowercase hex characters, most significant nibble first. -/
def hex64 (n : Nat) : String :=
  String.mk ((List.range 64).map (fun i => hexDigitChar (n / 16 ^ (63 - i) % 16)))

/-- Lowercase-hex SHA-256 of a byte message. -/
def sha256hex (msg : List Nat) : String := hex64 (sha256Nat msg)

/-- `compute_etag` (main.py 41-45): deterministic ETag derived from the resource
content, `sha256(json.dumps(resource, sort_keys=True, default=str).encode("utf-8")).hexdigest()`. -/
def compute_etag (resource : List (String × J)) : String :=
  sha256hex (utf8Bytes (dumpsVal (J.obj resource)))

/-! ### Basic facts about the digest -/

/-- All eight working variables stay below `2^32`. -/
def boundedState (s : SHAState) : Prop :=
  s.a < 2 ^ 32 ∧ s.b < 2 ^ 32 ∧ s.c < 2 ^ 32 ∧ s.d < 2 ^ 32 ∧
  s.e < 2 ^ 32 ∧ s.f < 2 ^ 32 ∧ s.g < 2 ^ 32 ∧ s.h < 2 ^ 32

theorem boundedState_finalAdd (st t : SHAState) : boundedState (finalAdd st t) := by
  refine ⟨?_, ?_, ?_, ?_, ?_, ?_, ?_, ?_⟩ <;>
    exact Nat.mod_lt _ (Nat.two_pow_pos 32)

theorem boundedState_compressBlock (st : SHAState) (blk : List Nat) :
    boundedState (compressBlock st blk) :=
  boundedState_finalAdd st _

theorem boundedState_foldl (l : List (List Nat)) (st : SHAState) (hst : boundedState st) :
    boundedState (l.foldl compressBlock st) := by
  induction l generalizing st with
  | nil => exact hst
  | cons b bs ih =>
      rw [List.foldl_cons]
      exact ih _ (boundedState_compressBlock st b)

theorem digestOfState_lt (s : SHAState) (hs : boundedState s) :
    digestOfState s < 2 ^ 256 := by
  obtain ⟨h1, h2, h3, h4, h5, h6, h7, h8⟩ := hs
  unfold digestOfState
  omega

theorem sha256Nat_lt (msg : List Nat) : sha256Nat msg < 2 ^ 256 := by
  refine digestOfState_lt _ ?_
  unfold sha256Words
  refine boundedState_foldl _ _ ?_
  unfold boundedState shaInit
  refine ⟨?_, ?_, ?_, ?_, ?_, ?_, ?_, ?_⟩ <;> decide

theorem sha256hex_length (msg : List Nat) : (sha256hex msg).length = 64 := by
  simp [sha256hex, hex64, String.length]

theorem compute_etag_length (resource : List (String × J)) :
    (compute_etag resource).length = 64 := sha256hex_length _

/-! ### Injectivity of the string-literal rendering (proof tools only)

`escChar` is a prefix code: the escape class of a character is visible from the
first one or two output characters, so two escaped streams that agree as lists
agree character by character.  This is what the payload-injectivity facts rest on. -/

/-- Inverse of the short escapes produced by `escChar`. -/
def shortUnesc (e : Char) : Option Char :=
  if e = '"' then some '"'
  else if e = '\\' then some '\\'
  else if e = 'b' then some (Char.ofNat 8)
  else if e = 't' then some (Char.ofNat 9)
  else if e = 'n' then some (Char.ofNat 10)
  else if e = 'f' then some (Char.ofNat 12)
  else if e = 'r' then some (Char.ofNat 13)
  else none

theorem hex4_combine (n : Nat) (h : n < 0x10000) :
    ((n / 4096 % 16 * 16 + n / 256 % 16) * 16 + n / 16 % 16) * 16 + n % 16 = n := by
  omega

/-- The code-point bounds of a `Char`, as `Nat` facts. -/
theorem char_toNat_valid (c : Char) :
    c.toNat < 0xd800 ∨ (0xdfff < c.toNat ∧ c.toNat < 0x110000) := by
  rcases c.valid with h | ⟨h1, h2⟩
  · exact Or.inl (UInt32.toNat_lt_of_lt (by decide) h)
  · exact Or.inr ⟨UInt32.lt_toNat_of_lt (by decide) h1, UInt32.toNat_lt_of_lt (by decide) h2⟩

theorem hexDigitChar_inj : ∀ d1 : Nat, d1 < 16 → ∀ d2 : Nat, d2 < 16 →
    hexDigitChar d1 = hexDigitChar d2 → d1 = d2 := by
  decide

theorem hex4_append_inj {n1 n2 : Nat} (h1 : n1 < 0x10000) (h2 : n2 < 0x10000)
    {r1 r2 : List Char} (h : hex4 n1 ++ r1 = hex4 n2 ++ r2) : n1 = n2 ∧ r1 = r2 := by
  simp only [hex4, List.cons_append, List.nil_append, List.cons.injEq] at h
  obtain ⟨d1, d2, d3, d4, hr⟩ := h
  have g1 := hexDigitChar_inj _ (Nat.mod_lt _ (by decide)) _ (Nat.mod_lt _ (by decide)) d1
  have g2 := hexDigitChar_inj _ (Nat.mod_lt _ (by decide)) _ (Nat.mod_lt _ (by decide)) d2
  have g3 := hexDigitChar_inj _ (Nat.mod_lt _ (by decide)) _ (Nat.mod_lt _ (by decide)) d3
  have g4 := hexDigitChar_inj _ (Nat.mod_lt _ (by decide)) _ (Nat.mod_lt _ (by decide)) d4
  exact ⟨by omega, hr⟩

theorem escChar_astral_hi (c : Char) (hb : ¬ c.toNat < 0x10000) :
    0xd800 ||| ((c.toNat - 0x10000) >>> 10 &&& 0x3ff) =
      0xd800 + (c.toNat - 0x10000) / 1024 := by
  have hv := char_toNat_valid c
  rw [Nat.shiftRight_eq_div_pow]
  rw [show (0x3ff : Nat) = 2 ^ 10 - 1 by norm_num]
  rw [Nat.and_pow_two_sub_one_eq_mod]
  rw [show (0xd800 : Nat) = 2 ^ 10 * 54 by norm_num]
  rw [← Nat.mul_add_lt_is_or (Nat.mod_lt _ (by norm_num)) 54]
  simp only [show (2 : Nat) ^ 10 = 1024 by norm_num]
  omega

theorem escChar_astral_lo (c : Char) (_hb : ¬ c.toNat < 0x10000) :
    0xdc00 ||| ((c.toNat - 0x10000) &&& 0x3ff) = 0xdc00 + (c.toNat - 0x10000) % 1024 := by
  have hv := char_toNat_valid c
  rw [show (0x3ff : Nat) = 2 ^ 10 - 1 by norm_num]
  rw [Nat.and_pow_two_sub_one_eq_mod]
  rw [show (0xdc00 : Nat) = 2 ^ 10 * 55 by norm_num]
  rw [← Nat.mul_add_lt_is_or (Nat.mod_lt _ (by norm_num)) 55]

/-- Every character falls in one of four escape classes, and each class
determines the character from the output. -/
theorem escChar_classify (c : Char) :
    (escChar c = [c] ∧ c ≠ '"' ∧ c ≠ '\\') ∨
    (∃ e, escChar c = ['\\', e] ∧ e ≠ 'u' ∧ shortUnesc e = some c) ∨
    (escChar c = '\\' :: 'u' :: hex4 c.toNat ∧ c.toNat < 0x10000 ∧
      ¬(0xd800 ≤ c.toNat ∧ c.toNat < 0xdc00)) ∨
    (∃ q r, q < 1024 ∧ r < 1024 ∧
      escChar c = '\\' :: 'u' :: (hex4 (0xd800 + q) ++ ('\\' :: 'u' :: hex4 (0xdc00 + r))) ∧
      c.toNat = 0x10000 + q * 1024 + r) := by
  by_cases h1 : c = '"'
  · subst h1; exact Or.inr (Or.inl ⟨'"', by decide, by decide, by decide⟩)
  by_cases h2 : c = '\\'
  · subst h2; exact Or.inr (Or.inl ⟨'\\', by decide, by decide, by decide⟩)
  by_cases h3 : c = Char.ofNat 8
  · subst h3; exact Or.inr (Or.inl ⟨'b', by decide, by decide, by decide⟩)
  by_cases h4 : c = Char.ofNat 9
  · subst h4; exact Or.inr (Or.inl ⟨'t', by decide, by decide, by decide⟩)
  by_cases h5 : c = Char.ofNat 10
  · subst h5; exact Or.inr (Or.inl ⟨'n', by decide, by decide, by decide⟩)
  by_cases h6 : c = Char.ofNat 12
  · subst h6; exact Or.inr (Or.inl ⟨'f', by decide, by decide, by decide⟩)
  by_cases h7 : c = Char.ofNat 13
  · subst h7; exact Or.inr (Or.inl ⟨'r', by decide, by decide, by decide⟩)
  by_cases h8 : 0x20 ≤ c.toNat ∧ c.toNat ≤ 0x7e
  · refine Or.inl ⟨?_, h1, h2⟩
    simp only [escChar, if_neg h1, if_neg h2, if_neg h3, if_neg h4, if_neg h5, if_neg h6,
      if_neg h7, if_pos h8]
  by_cases h9 : c.toNat < 0x10000
  · refine Or.inr (Or.inr (Or.inl ⟨?_, h9, ?_⟩))
    · simp only [escChar, if_neg h1, if_neg h2, if_neg h3, if_neg h4, if_neg h5, if_neg h6,
        if_neg h7, if_neg h8, if_pos h9]
    · have hv := char_toNat_valid c
      omega
  · have hv := char_toNat_valid c
    refine Or.inr (Or.inr (Or.inr ⟨(c.toNat - 0x10000) / 1024, (c.toNat - 0x10000) % 1024,
      by omega, by omega, ?_, by omega⟩))
    have he : escChar c =
        ('\\' :: 'u' :: hex4 (0xd800 ||| ((c.toNat - 0x10000) >>> 10 &&& 0x3ff))) ++
          ('\\' :: 'u' :: hex4 (0xdc00 ||| ((c.toNat - 0x10000) &&& 0x3ff))) := by
      simp only [escChar, if_neg h1, if_neg h2, if_neg h3, if_neg h4, if_neg h5, if_neg h6,
        if_neg h7, if_neg h8, if_neg h9]
    rw [he, escChar_astral_hi c h9, escChar_astral_lo c h9]
    simp only [List.cons_append]

theorem escChar_append_inj {c1 c2 : Char} {r1 r2 : List Char}
    (h : escChar c1 ++ r1 = escChar c2 ++ r2) : c1 = c2 ∧ r1 = r2 := by
  rcases escChar_classify c1 with ⟨e1, n1q, n1b⟩ | ⟨e1, e1h, e1u, e1s⟩ |
      ⟨e1h, e1lt, e1sur⟩ | ⟨q1, s1, hq1, hs1, e1h, e1v⟩ <;>
    rcases escChar_classify c2 with ⟨f1, m1q, m1b⟩ | ⟨f1, f1h, f1u, f1s⟩ |
      ⟨f1h, f1lt, f1sur⟩ | ⟨q2, s2, hq2, hs2, f1h, f1v⟩
  · rw [e1, f1] at h
    simp only [List.cons_append, List.nil_append, List.cons.injEq] at h
    exact h
  · rw [e1, f1h] at h
    simp only [List.cons_append, List.nil_append, List.cons.injEq] at h
    exact absurd h.1 n1b
  · rw [e1, f1h] at h
    simp only [List.cons_append, List.cons.injEq] at h
    exact absurd h.1 n1b
  · rw [e1, f1h] at h
    simp only [List.cons_append, List.cons.injEq] at h
    exact absurd h.1 n1b
  · rw [e1h, f1] at h
    simp only [List.cons_append, List.nil_append, List.cons.injEq] at h
    exact absurd h.1.symm m1b
  · rw [e1h, f1h] at h
    simp only [List.cons_append, List.nil_append, List.cons.injEq] at h
    obtain ⟨-, he, hr⟩ := h
    subst he
    rw [e1s] at f1s
    exact ⟨Option.some.inj f1s |>.symm ▸ rfl, hr⟩
  · rw [e1h, f1h] at h
    simp only [List.cons_append, List.nil_append, List.cons.injEq] at h
    exact absurd h.2.1 e1u
  · rw [e1h, f1h] at h
    simp only [List.cons_append, List.nil_append, List.cons.injEq] at h
    exact absurd h.2.1 e1u
  · rw [e1h, f1] at h
    simp only [List.cons_append, List.nil_append, List.cons.injEq] at h
    exact absurd h.1.symm m1b
  · rw [e1h, f1h] at h
    simp only [List.cons_append, List.nil_append, List.cons.injEq] at h
    exact absurd h.2.1.symm f1u
  · rw [e1h, f1h] at h
    simp only [List.cons_append, List.cons.injEq, true_and] at h
    obtain ⟨hx, hr⟩ := hex4_append_inj e1lt f1lt h
    refine ⟨?_, hr⟩
    have := congrArg Char.ofNat hx
    rwa [Char.ofNat_toNat, Char.ofNat_toNat] at this
  · rw [e1h, f1h] at h
    simp only [List.cons_append, List.append_assoc, List.cons.injEq, true_and] at h
    obtain ⟨hx, -⟩ := hex4_append_inj e1lt (by omega) h
    exact absurd ⟨by omega, by omega⟩ e1sur
  · rw [e1h, f1] at h
    simp only [List.cons_append, List.nil_append, List.cons.injEq] at h
    exact absurd h.1.symm m1b
  · rw [e1h, f1h] at h
    simp only [List.cons_append, List.nil_append, List.cons.injEq] at h
    exact absurd h.2.1.symm f1u
  · rw [e1h, f1h] at h
    simp only [List.cons_append, List.append_assoc, List.cons.injEq, true_and] at h
    obtain ⟨hx, -⟩ := hex4_append_inj (by omega) f1lt h
    exact absurd ⟨by omega, by omega⟩ f1sur
  · rw [e1h, f1h] at h
    simp only [List.cons_append, List.append_assoc, List.cons.injEq, true_and] at h
    have hb1 : (0xd800 + q1 : Nat) < 0x10000 := by omega
    have hb2 : (0xd800 + q2 : Nat) < 0x10000 := by omega
    obtain ⟨hx, h2⟩ := hex4_append_inj hb1 hb2 h
    simp only [List.cons_append, List.cons.injEq, true_and] at h2
    have hb3 : (0xdc00 + s1 : Nat) < 0x10000 := by omega
    have hb4 : (0xdc00 + s2 : Nat) < 0x10000 := by omega
    obtain ⟨hy, hr⟩ := hex4_append_inj hb3 hb4 h2
    have hv : c1.toNat = c2.toNat := by omega
    have hc := congrArg Char.ofNat hv
    rw [Char.ofNat_toNat, Char.ofNat_toNat] at hc
    exact ⟨hc, hr⟩

theorem quote_ne_escChar_append (c : Char) (l m : List Char) :
    '"' :: l ≠ escChar c ++ m := by
  intro h
  rcases escChar_classify c with ⟨e1, n1q, -⟩ | ⟨e1, e1h, -, -⟩ | ⟨e1h, -, -⟩ |
      ⟨q1, s1, -, -, e1h, -⟩
  · rw [e1] at h
    simp only [List.cons_append, List.nil_append, List.cons.injEq] at h
    exact n1q h.1.symm
  · rw [e1h] at h
    simp only [List.cons_append, List.nil_append, List.cons.injEq] at h
    exact absurd h.1 (by decide)
  · rw [e1h] at h
    simp only [List.cons_append, List.cons.injEq] at h
    exact absurd h.1 (by decide)
  · rw [e1h] at h
    simp only [List.cons_append, List.cons.injEq] at h
    exact absurd h.1 (by decide)

/-- Two escaped streams closed by a quote agree iff the plain texts agree. -/
theorem escList_quote_inj : ∀ s1 : List Char, ∀ s2 t1 t2 : List Char,
    escList s1 ++ '"' :: t1 = escList s2 ++ '"' :: t2 → s1 = s2 ∧ t1 = t2 := by
  intro s1
  induction s1 with
  | nil =>
    intro s2 t1 t2 h
    cases s2 with
    | nil =>
      simp only [escList, List.nil_append, List.cons.injEq, true_and] at h
      exact ⟨rfl, h⟩
    | cons d ds =>
      simp only [escList, List.nil_append, List.append_assoc] at h
      exact absurd h (quote_ne_escChar_append d t1 _)
  | cons c cs ih =>
    intro s2 t1 t2 h
    cases s2 with
    | nil =>
      simp only [escList, List.nil_append, List.append_assoc] at h
      exact absurd h.symm (quote_ne_escChar_append c t2 _)
    | cons d ds =>
      simp only [escList, List.append_assoc] at h
      obtain ⟨hc, hr⟩ := escChar_append_inj h
      obtain ⟨hs, ht⟩ := ih ds t1 t2 hr
      exact ⟨by rw [hc, hs], ht⟩

/-- A rendered string literal determines the string and the rest of the input. -/
theorem renderStr_append_inj {s1 s2 : String} {t1 t2 : List Char}
    (h : renderStr s1 ++ t1 = renderStr s2 ++ t2) : s1 = s2 ∧ t1 = t2 := by
  unfold renderStr at h
  simp only [List.cons_append, List.append_assoc, List.cons.injEq, true_and,
    List.singleton_append] at h
  obtain ⟨hd, ht⟩ := escList_quote_inj _ _ _ _ h
  refine ⟨?_, ht⟩
  cases s1
  cases s2
  exact congrArg String.mk hd

theorem renderStr_inj {s1 s2 : String} (h : renderStr s1 = renderStr s2) : s1 = s2 :=
  (@renderStr_append_inj s1 s2 [] [] (by simpa using h)).1

/-! ### Injectivity of the object serialization -/

/-- Scalar JSON values: the shapes address fields take (strings and nulls). -/
def isScalar : J → Bool
  | .null => true
  | .str _ => true
  | _ => false

theorem scalar_dumps_append_inj {v1 v2 : J} (h1 : isScalar v1 = true) (h2 : isScalar v2 = true)
    {t1 t2 : List Char} (h : dumpsVal v1 ++ t1 = dumpsVal v2 ++ t2) : v1 = v2 ∧ t1 = t2 := by
  cases v1 with
  | null =>
    cases v2 with
    | null =>
      simp only [dumpsVal, List.cons_append, List.nil_append, List.cons.injEq, true_and] at h
      exact ⟨rfl, h⟩
    | str s =>
      simp only [dumpsVal, renderStr, List.cons_append, List.cons.injEq] at h
      exact absurd h.1 (by decide)
    | arr xs => simp [isScalar] at h2
    | obj kvs => simp [isScalar] at h2
  | str s1 =>
    cases v2 with
    | null =>
      simp only [dumpsVal, renderStr, List.cons_append, List.cons.injEq] at h
      exact absurd h.1 (by decide)
    | str s2 =>
      simp only [dumpsVal] at h
      obtain ⟨hs, ht⟩ := renderStr_append_inj h
      exact ⟨by rw [hs], ht⟩
    | arr xs => simp [isScalar] at h2
    | obj kvs => simp [isScalar] at h2
  | arr xs => simp [isScalar] at h1
  | obj kvs => simp [isScalar] at h1

/-- Alignment of rendered object entries: same key, and the rendered values are
either equal or both renderings of scalar values. -/
def entriesAlign (p q : String × List Char) : Prop :=
  p.1 = q.1 ∧ (p.2 = q.2 ∨
    ∃ v1 v2 : J, isScalar v1 = true ∧ isScalar v2 = true ∧ p.2 = dumpsVal v1 ∧ q.2 = dumpsVal v2)

theorem joined_entries_inj {l1 l2 : List (String × List Char)}
    (hF : List.Forall₂ entriesAlign l1 l2) :
    ∀ t1 t2 : List Char,
      joinEntries (l1.map renderEntry) ++ t1 = joinEntries (l2.map renderEntry) ++ t2 →
      l1 = l2 ∧ t1 = t2 := by
  induction hF with
  | nil =>
    intro t1 t2 h
    simpa [joinEntries] using h
  | @cons a b l1' l2' hpq hrest ih =>
    intro t1 t2 h
    obtain ⟨k1, rv1⟩ := a
    obtain ⟨k2, rv2⟩ := b
    obtain ⟨hk, hv⟩ := hpq
    simp only at hk
    subst hk
    cases hrest with
    | nil =>
      simp only [List.map_cons, List.map_nil, joinEntries, renderEntry,
        List.append_assoc, List.cons_append] at h
      have h' := List.append_cancel_left h
      simp only [List.cons.injEq, true_and] at h'
      rcases hv with he | ⟨v1, v2, hs1, hs2, hd1, hd2⟩
      · simp only at he
        subst he
        have ht := List.append_cancel_left h'
        exact ⟨rfl, ht⟩
      · simp only at hd1 hd2
        rw [hd1, hd2] at h'
        obtain ⟨hveq, hteq⟩ := scalar_dumps_append_inj hs1 hs2 h'
        subst hveq
        rw [hd1, ← hd2]
        exact ⟨rfl, hteq⟩
    | cons hpq2 hrest2 =>
      simp only [List.map_cons, joinEntries, renderEntry,
        List.append_assoc, List.cons_append] at h
      have h' := List.append_cancel_left h
      simp only [List.cons.injEq, true_and] at h'
      rcases hv with he | ⟨v1, v2, hs1, hs2, hd1, hd2⟩
      · simp only at he
        subst he
        have ht := List.append_cancel_left h'
        simp only [List.cons.injEq, true_and] at ht
        have hmain := ih _ _ ht
        exact ⟨by rw [hmain.1], hmain.2⟩
      · simp only at hd1 hd2
        rw [hd1, hd2] at h'
        obtain ⟨hveq, hteq⟩ := scalar_dumps_append_inj hs1 hs2 h'
        subst hveq
        simp only [List.cons.injEq, true_and] at hteq
        have hmain := ih _ _ hteq
        rw [hd1, ← hd2]
        exact ⟨by rw [hmain.1], hmain.2⟩

theorem sortPairs_perm (l : List (String × List Char)) : List.Perm (sortPairs l) l :=
  List.mergeSort_perm l _

theorem sortPairs_sorted (l : List (String × List Char)) :
    (sortPairs l).Pairwise (fun a b => a.1 ≤ b.1) := by
  have h := @List.sorted_mergeSort (String × List Char) (fun a b => decide (a.1 ≤ b.1))
    (fun a b c hab hbc =>
      decide_eq_true (le_trans (of_decide_eq_true hab) (of_decide_eq_true hbc)))
    (fun a b => by simpa using le_total a.1 b.1)
    l
  refine h.imp ?_
  intro a b hab
  exact of_decide_eq_true hab

theorem keys_sortPairs_nodup {l : List (String × List Char)}
    (h : (l.map Prod.fst).Nodup) : ((sortPairs l).map Prod.fst).Nodup :=
  ((sortPairs_perm l).map Prod.fst).nodup_iff.mpr h

theorem sortPairs_pairwise_lt {l : List (String × List Char)}
    (h : (l.map Prod.fst).Nodup) : (sortPairs l).Pairwise (fun a b => a.1 < b.1) := by
  have h1 := sortPairs_sorted l
  have h2 : (sortPairs l).Pairwise (fun a b => a.1 ≠ b.1) := by
    have hnd := keys_sortPairs_nodup h
    simp only [List.Nodup] at hnd
    rw [List.pairwise_map] at hnd
    exact hnd
  exact (h1.and h2).imp (fun hab => lt_of_le_of_ne hab.1 hab.2)

theorem keys_sortPairs_eq {l1 l2 : List (String × List Char)}
    (hk : l1.map Prod.fst = l2.map Prod.fst) (hnd : (l1.map Prod.fst).Nodup) :
    (sortPairs l1).map Prod.fst = (sortPairs l2).map Prod.fst := by
  haveI : IsAntisymm String (· < ·) :=
    ⟨fun a b h1 h2 => absurd (lt_trans h1 h2) (lt_irrefl _)⟩
  have hnd2 : (l2.map Prod.fst).Nodup := hk ▸ hnd
  exact List.eq_of_perm_of_sorted
    (((sortPairs_perm l1).map _).trans (hk ▸ ((sortPairs_perm l2).map _).symm))
    ((List.pairwise_map).mpr (sortPairs_pairwise_lt hnd))
    ((List.pairwise_map).mpr (sortPairs_pairwise_lt hnd2))

/-- A permutation with the same (duplicate-free) key sequence is the identity. -/
theorem perm_keys_eq {α : Type} : ∀ {l1 l2 : List (String × α)}, List.Perm l1 l2 →
    l1.map Prod.fst = l2.map Prod.fst → (l1.map Prod.fst).Nodup → l1 = l2 := by
  intro l1
  induction l1 with
  | nil =>
    intro l2 hp _ _
    exact hp.nil_eq
  | cons a t1 ih =>
    intro l2 hp hk hnd
    cases l2 with
    | nil => exact absurd hp.symm.nil_eq (by simp)
    | cons b t2 =>
      simp only [List.map_cons, List.cons.injEq] at hk
      obtain ⟨hk1, hk2⟩ := hk
      obtain ⟨k, v⟩ := a
      obtain ⟨k2, v2⟩ := b
      simp only at hk1
      subst hk1
      simp only [List.map_cons, List.nodup_cons] at hnd
      have hmem : (k, v) ∈ (k, v2) :: t2 := hp.mem_iff.mp (List.mem_cons_self _ _)
      rcases List.mem_cons.mp hmem with heq | hmem2
      · have hv : v = v2 := (Prod.mk.injEq _ _ _ _ |>.mp heq).2
        subst hv
        have hp' : List.Perm t1 t2 := hp.cons_inv
        rw [ih hp' hk2 hnd.2]
      · exfalso
        have hkm : k ∈ t2.map Prod.fst := List.mem_map_of_mem Prod.fst hmem2
        rw [← hk2] at hkm
        exact hnd.1 hkm

/-- Alignment of two resource dicts: same key, and the values are either both
scalar or equal. -/
def fieldsAlign (p q : String × J) : Prop :=
  p.1 = q.1 ∧ ((isScalar p.2 = true ∧ isScalar q.2 = true) ∨ p.2 = q.2)

theorem fieldsAlign_keys : ∀ {l1 l2 : List (String × J)}, List.Forall₂ fieldsAlign l1 l2 →
    l1.map Prod.fst = l2.map Prod.fst := by
  intro l1 l2 h
  induction h with
  | nil => rfl
  | cons hpq _ ih => simp [ih, hpq.1]

theorem fieldsAlign_lookup : ∀ {l1 l2 : List (String × J)}, List.Forall₂ fieldsAlign l1 l2 →
    (l1.map Prod.fst).Nodup → ∀ k v1 v2, (k, v1) ∈ l1 → (k, v2) ∈ l2 →
    (isScalar v1 = true ∧ isScalar v2 = true) ∨ v1 = v2 := by
  intro l1 l2 h
  induction h with
  | nil =>
    intro _ k v1 v2 h1 _
    simp at h1
  | @cons a b t1 t2 hpq htail ih =>
    intro hnd k v1 v2 h1 h2
    obtain ⟨ka, va⟩ := a
    obtain ⟨kb, vb⟩ := b
    obtain ⟨hk, hv⟩ := hpq
    simp only at hk
    subst hk
    simp only [List.map_cons, List.nodup_cons] at hnd
    rcases List.mem_cons.mp h1 with he1 | hm1 <;> rcases List.mem_cons.mp h2 with he2 | hm2
    · obtain ⟨hk1, hv1⟩ := Prod.mk.injEq _ _ _ _ |>.mp he1
      obtain ⟨hk2, hv2⟩ := Prod.mk.injEq _ _ _ _ |>.mp he2
      subst hv1
      subst hv2
      exact hv
    · exfalso
      obtain ⟨hk1, -⟩ := Prod.mk.injEq _ _ _ _ |>.mp he1
      subst hk1
      have : k ∈ t2.map Prod.fst := List.mem_map_of_mem Prod.fst hm2
      rw [← fieldsAlign_keys htail] at this
      exact hnd.1 this
    · exfalso
      obtain ⟨hk2, -⟩ := Prod.mk.injEq _ _ _ _ |>.mp he2
      subst hk2
      have : k ∈ t1.map Prod.fst := List.mem_map_of_mem Prod.fst hm1
      exact hnd.1 this
    · exact ih hnd.2 k v1 v2 hm1 hm2

/-- Two lists with the same key sequence whose members align pairwise by key
align positionally. -/
theorem align_positional : ∀ (s1 s2 : List (String × List Char)),
    s1.map Prod.fst = s2.map Prod.fst →
    (∀ p q, p ∈ s1 → q ∈ s2 → p.1 = q.1 → entriesAlign p q) →
    List.Forall₂ entriesAlign s1 s2 := by
  intro s1
  induction s1 with
  | nil =>
    intro s2 hk _
    cases s2 with
    | nil => exact List.Forall₂.nil
    | cons b t2 => simp at hk
  | cons a t1 ih =>
    intro s2 hk hmem
    cases s2 with
    | nil => simp at hk
    | cons b t2 =>
      simp only [List.map_cons, List.cons.injEq] at hk
      refine List.Forall₂.cons
        (hmem a b (List.mem_cons_self _ _) (List.mem_cons_self _ _) hk.1) ?_
      refine ih t2 hk.2 ?_
      intro p q hp hq hpq
      exact hmem p q (List.mem_cons_of_mem _ hp) (List.mem_cons_of_mem _ hq) hpq

theorem dumpsFields_eq_map (l : List (String × J)) :
    dumpsFields l = l.map (fun p => (p.1, dumpsVal p.2)) := by
  induction l with
  | nil => rfl
  | cons p ps ih => simp only [dumpsFields, List.map_cons, ih]

theorem keys_dumpsFields (l : List (String × J)) :
    (dumpsFields l).map Prod.fst = l.map Prod.fst := by
  rw [dumpsFields_eq_map, List.map_map]
  rfl

/-- From equal rendered field lists back to equal resources, using alignment to
invert the rendering at scalar positions. -/
theorem fields_eq_of_dumpsFields_eq : ∀ {l1 l2 : List (String × J)},
    List.Forall₂ fieldsAlign l1 l2 → dumpsFields l1 = dumpsFields l2 → l1 = l2 := by
  intro l1 l2 h
  induction h with
  | nil => intro _; rfl
  | @cons a b t1 t2 hpq htail ih =>
    intro hd
    obtain ⟨ka, va⟩ := a
    obtain ⟨kb, vb⟩ := b
    obtain ⟨hk, hv⟩ := hpq
    simp only at hk
    subst hk
    simp only [dumpsFields, List.cons.injEq, Prod.mk.injEq, true_and] at hd ⊢
    refine ⟨?_, ih hd.2⟩
    rcases hv with ⟨hs1, hs2⟩ | he
    · have hap : dumpsVal va ++ ([] : List Char) = dumpsVal vb ++ [] := by
        simp [hd.1]
      exact (scalar_dumps_append_inj hs1 hs2 hap).1
    · exact he

/-- `json.dumps(·, sort_keys=True)` is injective on objects whose fields align:
same duplicate-free keys, values scalar or equal at every key. -/
theorem dumpsVal_obj_inj {r1 r2 : List (String × J)}
    (hnd : (r1.map Prod.fst).Nodup)
    (halign : List.Forall₂ fieldsAlign r1 r2)
    (h : dumpsVal (J.obj r1) = dumpsVal (J.obj r2)) : r1 = r2 := by
  have hk : r1.map Prod.fst = r2.map Prod.fst := fieldsAlign_keys halign
  have hnd2 : (r2.map Prod.fst).Nodup := hk ▸ hnd
  have hndf1 : ((dumpsFields r1).map Prod.fst).Nodup := by rwa [keys_dumpsFields]
  have hndf2 : ((dumpsFields r2).map Prod.fst).Nodup := by rwa [keys_dumpsFields]
  simp only [dumpsVal, List.cons.injEq, true_and] at h
  have hkeys : (sortPairs (dumpsFields r1)).map Prod.fst =
      (sortPairs (dumpsFields r2)).map Prod.fst := by
    refine keys_sortPairs_eq ?_ hndf1
    rw [keys_dumpsFields, keys_dumpsFields]
    exact hk
  have hmemAlign : ∀ p q, p ∈ sortPairs (dumpsFields r1) → q ∈ sortPairs (dumpsFields r2) →
      p.1 = q.1 → entriesAlign p q := by
    intro p q hp hq hpq
    have hp' : p ∈ dumpsFields r1 := ((sortPairs_perm _).mem_iff).mp hp
    have hq' : q ∈ dumpsFields r2 := ((sortPairs_perm _).mem_iff).mp hq
    rw [dumpsFields_eq_map] at hp' hq'
    obtain ⟨⟨k1, v1⟩, hmem1, hpe⟩ := List.mem_map.mp hp'
    obtain ⟨⟨k2, v2⟩, hmem2, hqe⟩ := List.mem_map.mp hq'
    simp only at hpe hqe
    subst hpe
    subst hqe
    simp only at hpq ⊢
    subst hpq
    refine ⟨rfl, ?_⟩
    rcases fieldsAlign_lookup halign hnd k1 v1 v2 hmem1 hmem2 with ⟨hs1, hs2⟩ | he
    · exact Or.inr ⟨v1, v2, hs1, hs2, rfl, rfl⟩
    · exact Or.inl (by rw [he])
  have halignS := align_positional _ _ hkeys hmemAlign
  have hsorted := (joined_entries_inj halignS _ _ h).1
  have hpermf : List.Perm (dumpsFields r1) (dumpsFields r2) :=
    ((sortPairs_perm _).symm.trans (hsorted ▸ sortPairs_perm _))
  have hfeq : dumpsFields r1 = dumpsFields r2 := by
    refine perm_keys_eq hpermf ?_ hndf1
    rw [keys_dumpsFields, keys_dumpsFields]
    exact hk
  exact fields_eq_of_dumpsFields_eq halign hfeq

/-- Object serialization only depends on the dict up to key order (`sort_keys=True`):
permuting duplicate-free fields leaves the payload unchanged. -/
theorem dumpsVal_obj_perm {r1 r2 : List (String × J)} (hp : List.Perm r1 r2)
    (hnd : (r1.map Prod.fst).Nodup) : dumpsVal (J.obj r1) = dumpsVal (J.obj r2) := by
  have hpf : List.Perm (dumpsFields r1) (dumpsFields r2) := by
    rw [dumpsFields_eq_map, dumpsFields_eq_map]
    exact hp.map _
  have hndf : ((dumpsFields r1).map Prod.fst).Nodup := by rwa [keys_dumpsFields]
  have hsort : sortPairs (dumpsFields r1) = sortPairs (dumpsFields r2) := by
    haveI : IsAntisymm (String × List Char) (fun a b => a.1 < b.1) :=
      ⟨fun a b h1 h2 => absurd (lt_trans h1 h2) (lt_irrefl _)⟩
    have hndf2 : ((dumpsFields r2).map Prod.fst).Nodup :=
      ((hpf.map Prod.fst).nodup_iff).mp hndf
    exact List.eq_of_perm_of_sorted
      ((sortPairs_perm _).trans (hpf.trans (sortPairs_perm _).symm))
      (sortPairs_pairwise_lt hndf) (sortPairs_pairwise_lt hndf2)
  simp only [dumpsVal, hsort]

/-! ### The service model: rows, filters, handlers -/

/-- A stored `addresses` row: exactly the eight columns written by the INSERT in
`create_address` (main.py 74-89).  `id` is the primary key; the other columns
come back from `SELECT *` as strings or NULL. -/
structure Row where
  id : String
  name : Option String
  street : Option String
  unit : Option String
  city : Option String
  state : Option String
  postal_code : Option String
  country : Option String
deriving DecidableEq

/-- A fetched column value as JSON: NULL becomes `null`. -/
def optJ : Option String → J
  | none => J.null
  | some s => J.str s

/-- The dict of a fetched row, keys in column order. -/
def rowPairs (r : Row) : List (String × J) :=
  [("id", J.str r.id), ("name", optJ r.name), ("street", optJ r.street),
   ("unit", optJ r.unit), ("city", optJ r.city), ("state", optJ r.state),
   ("postal_code", optJ r.postal_code), ("country", optJ r.country)]

/-- The two hypermedia links attached to a single resource (self, collection). -/
def linksJ (i : String) : J :=
  J.arr [J.obj [("rel", J.str "self"), ("href", J.str ("/addresses/" ++ i))],
         J.obj [("rel", J.str "collection"), ("href", J.str "/addresses")]]

/-- `SELECT * FROM addresses WHERE id=%s` with `fetchone()`. -/
def findRow (db : List Row) (i : String) : Option Row :=
  db.find? (fun r => r.id == i)

/-- `get_address` (main.py 205-221): 404 when absent, otherwise the row dict with
links appended and the `ETag` header computed over that dict. -/
def get_address (db : List Row) (addressId : String) :
    Except Nat (List (String × J) × String) :=
  match findRow db addressId with
  | none => Except.error 404
  | some result =>
      Except.ok (rowPairs result ++ [("links", linksJ result.id)],
        compute_etag (rowPairs result ++ [("links", linksJ result.id)]))

/-- `AddressUpdate` with `model_dump(exclude_unset=True)`: the outer `Option` is
"was the field supplied", the inner is the supplied value (possibly null). -/
structure AddressUpdate where
  name : Option (Option String)
  street : Option (Option String)
  unit : Option (Option String)
  city : Option (Option String)
  state : Option (Option String)
  postal_code : Option (Option String)
  country : Option (Option String)
deriving DecidableEq

/-- `{**stored, **update.model_dump(exclude_unset=True)}` for one field. -/
def mergeField (upd : Option (Option String)) (stored : Option String) : Option String :=
  match upd with
  | some v => v
  | none => stored

/-- The merged `updated_data` row (id comes from the stored row). -/
def mergedRow (stored : Row) (upd : AddressUpdate) : Row :=
  { id := stored.id
    name := mergeField upd.name stored.name
    street := mergeField upd.street stored.street
    unit := mergeField upd.unit stored.unit
    city := mergeField upd.city stored.city
    state := mergeField upd.state stored.state
    postal_code := mergeField upd.postal_code stored.postal_code
    country := mergeField upd.country stored.country }

/-- `update_address` (main.py 223-273).  404 when the row is absent; the If-Match
check mirrors `if if_match and if_match != current_etag` (an absent or empty
header skips the check); otherwise the seven columns are UPDATEd and the
response carries the merged resource plus links and its new ETag. -/
def update_address (db : List Row) (addressId : String) (upd : AddressUpdate)
    (ifMatch : Option String) : Except Nat (List (String × J) × String) × List Row :=
  match findRow db addressId with
  | none => (Except.error 404, db)
  | some stored =>
      if (match ifMatch with
          | some s => !(s == "") &&
              !(s == compute_etag (rowPairs stored ++ [("links", linksJ stored.id)]))
          | none => false) then
        (Except.error 412, db)
      else
        let merged := mergedRow stored upd
        let db2 := db.map (fun r =>
          if r.id == addressId then
            { r with
              name := merged.name
              street := merged.street
              unit := merged.unit
              city := merged.city
              state := merged.state
              postal_code := merged.postal_code
              country := merged.country }
          else r)
        let resource := rowPairs merged ++ [("links", linksJ addressId)]
        (Except.ok (resource, compute_etag resource), db2)

/-- An in-memory job entry (`jobs[job_id] = {"status": ..., "address_id": ...}`). -/
structure JobRec where
  status : String
  address_id : String
deriving DecidableEq

/-- Python dict assignment on the association-list job store. -/
def setJob (jobs : List (String × JobRec)) (k : String) (v : JobRec) :
    List (String × JobRec) :=
  if (jobs.find? (fun p => p.1 == k)).isSome then
    jobs.map (fun p => if p.1 == k then (k, v) else p)
  else jobs ++ [(k, v)]

/-- `jobs.get(job_id)`. -/
def getJob (jobs : List (String × JobRec)) (k : String) : Option JobRec :=
  (jobs.find? (fun p => p.1 == k)).map Prod.snd

/-- Everything `delete_address` (main.py 275-293) produces: HTTP status, the
`Location` header, the body triple `(job_id, status, location)`, and the three
pieces of state — rows, job map, scheduled background tasks. -/
structure DeleteResult where
  status : Nat
  location : Option String
  body : Option (String × String × String)
  db : List Row
  jobs : List (String × JobRec)
  tasks : List (String × String)
deriving DecidableEq

/-- `delete_address`: fail fast with 404 (no job, nothing scheduled), else create
a `pending` job, schedule `process_delete_job` and answer 202; the rows are
untouched before the response. -/
def delete_address (db : List Row) (jobs : List (String × JobRec))
    (tasks : List (String × String)) (addressId : String) (jobId : String) : DeleteResult :=
  match findRow db addressId with
  | none => ⟨404, none, none, db, jobs, tasks⟩
  | some _ =>
      ⟨202, some ("/jobs/" ++ jobId), some (jobId, "accepted", "/jobs/" ++ jobId),
       db, setJob jobs jobId ⟨"pending", addressId⟩, tasks ++ [(jobId, addressId)]⟩

/-! ### list_addresses: filters, WHERE clause, pagination links -/

/-- The seven optional exact-match query filters of `list_addresses`. -/
structure Filters where
  name : Option String
  street : Option String
  unit : Option String
  city : Option String
  state : Option String
  postal_code : Option String
  country : Option String
deriving DecidableEq

/-- Python truthiness of an `Optional[str]`: `None` and `""` are falsy.  This is
the test every `if name:` in `list_addresses`/`make_qs` performs. -/
def truthy : Option String → Bool
  | none => false
  | some s => !(s == "")

/-- One `" AND col=%s"` contribution to the WHERE clause (main.py 129-149):
omitted entirely when the filter is falsy. -/
def filterClause (col : String) (x : Option String) : String × List String :=
  match x with
  | some s => if s == "" then ("", []) else (" AND " ++ col ++ "=%s", [s])
  | none => ("", [])

/-- The SQL predicate text and parameter list built by main.py 127-149. -/
def whereClause (F : Filters) : String × List String :=
  let parts := [filterClause "name" F.name, filterClause "street" F.street,
    filterClause "unit" F.unit, filterClause "city" F.city, filterClause "state" F.state,
    filterClause "postal_code" F.postal_code, filterClause "country" F.country]
  ("FROM addresses WHERE 1=1" ++ String.join (parts.map Prod.fst),
   parts.foldr (fun p acc => p.2 ++ acc) [])

/-- Row-level meaning of one `col=%s` predicate (`NULL = x` is never true in SQL;
a falsy filter contributes no predicate). -/
def filterMatch (x : Option String) (col : Option String) : Bool :=
  match x with
  | some s => if s == "" then true else col == some s
  | none => true

/-- The full ANDed WHERE predicate on a row. -/
def rowMatches (F : Filters) (r : Row) : Bool :=
  filterMatch F.name r.name && filterMatch F.street r.street &&
  filterMatch F.unit r.unit && filterMatch F.city r.city && filterMatch F.state r.state &&
  filterMatch F.postal_code r.postal_code && filterMatch F.country r.country

/-- One `key=value` query-string part (main.py 168-181): only truthy filters
appear. -/
def qsPart (key : String) (x : Option String) : List String :=
  match x with
  | some s => if s == "" then [] else [key ++ "=" ++ s]
  | none => []

/-- `make_qs` (main.py 166-184): supplied filters in fixed order, then limit and
offset; `parts` is never empty because limit and offset are always appended. -/
def make_qs (F : Filters) (limit offset : Nat) : String :=
  let parts := qsPart "name" F.name ++ qsPart "street" F.street ++ qsPart "unit" F.unit ++
    qsPart "city" F.city ++ qsPart "state" F.state ++ qsPart "postal_code" F.postal_code ++
    qsPart "country" F.country ++ ["limit=" ++ toString limit, "offset=" ++ toString offset]
  if parts ≠ [] then "?" ++ String.intercalate "&" parts else ""

/-- `last_offset` (main.py 189): `max(0, ((total - 1) // limit) * limit) if
total > 0 else 0`.  Both operands are non-negative on the guarded branch, so
Python's floor division agrees with `Nat` division. -/
def last_offset (total limit : Nat) : Nat :=
  if total > 0 then max 0 ((total - 1) / limit * limit) else 0

/-- A pagination link. -/
structure Link where
  rel : String
  href : String
deriving DecidableEq

/-- The links list built by main.py 185-196: current, first, last, then
conditionally prev and next. -/
def pagLinks (F : Filters) (limit offset total : Nat) : List Link :=
  [⟨"current", "/addresses" ++ make_qs F limit offset⟩,
   ⟨"first", "/addresses" ++ make_qs F limit 0⟩,
   ⟨"last", "/addresses" ++ make_qs F limit (last_offset total limit)⟩] ++
  (if offset > 0 then
    [⟨"prev", "/addresses" ++ make_qs F limit (max 0 (offset - limit))⟩] else []) ++
  (if offset + limit < total then
    [⟨"next", "/addresses" ++ make_qs F limit (offset + limit)⟩] else [])

/-- The non-GeoJSON response of `list_addresses`: resources with links, the
pagination links, and the total that also feeds the `X-Total-Count` header. -/
structure ListResponse where
  data : List (List (String × J))
  links : List Link
  total : Nat

/-- `list_addresses` (main.py 111-203, plain JSON path): the storage engine
evaluates the same predicate for `COUNT(*)` and for the `LIMIT/OFFSET` page. -/
def list_addresses (db : List Row) (F : Filters) (limit offset : Nat) : ListResponse :=
  let filtered := db.filter (rowMatches F)
  let total := filtered.length
  let rows := (filtered.drop offset).take limit
  { data := rows.map (fun r => rowPairs r ++ [("links", linksJ r.id)]),
    links := pagLinks F limit offset total,
    total := total }

/-! ### Connection lifecycle of each handler (for the resource-safety claim)

A tiny state-passing model: each storage call may raise, `closeCursor`/`closeConn`
record the `close()` calls, and the combinators mirror Python's `try/except
mysql.connector.Error` and `try/finally`.  Each `...ConnTrace` definition follows
its handler's statement order exactly. -/

/-- Which of the two `close()` calls have run. -/
structure ConnState where
  cursorClosed : Bool
  connClosed : Bool
deriving DecidableEq

/-- An exception: a storage error or an HTTPException with a status code. -/
inductive DbErr where
  | dbError : DbErr
  | http (code : Nat) : DbErr
deriving DecidableEq

/-- A handler step: state in, result or exception plus state out. -/
def CM (α : Type) := ConnState → Except DbErr α × ConnState

def cmPure {α : Type} (a : α) : CM α := fun s => (Except.ok a, s)

def cmBind {α β : Type} (m : CM α) (f : α → CM β) : CM β := fun s =>
  match m s with
  | (Except.ok a, s2) => f a s2
  | (Except.error e, s2) => (Except.error e, s2)

def cmSeq {α : Type} (m : CM Unit) (k : CM α) : CM α := cmBind m (fun _ => k)

def cmRaise {α : Type} (e : DbErr) : CM α := fun s => (Except.error e, s)

def execSQL (fails : Bool) : CM Unit := fun s =>
  (if fails then Except.error DbErr.dbError else Except.ok (), s)

def closeCursor : CM Unit := fun s => (Except.ok (), { s with cursorClosed := true })

def closeConn : CM Unit := fun s => (Except.ok (), { s with connClosed := true })

/-- `try ... except mysql.connector.Error: ...` — only the storage error is caught. -/
def catchDb {α : Type} (m : CM α) (handler : CM α) : CM α := fun s =>
  match m s with
  | (Except.error DbErr.dbError, s2) => handler s2
  | other => other

/-- `try ... finally fin` — `fin` always runs, the body's outcome is kept. -/
def withFinally {α : Type} (m : CM α) (fin : CM Unit) : CM α := fun s =>
  match m s with
  | (r, s2) => (r, (fin s2).2)

/-- Connection and cursor freshly opened, nothing closed yet. -/
def openState : ConnState := ⟨false, false⟩

/-- `create_address` (main.py 68-105): try insert/commit, except mysql error →
HTTP 500, finally close cursor and connection. -/
def createConnTrace (insertFails commitFails : Bool) : Except DbErr Unit × ConnState :=
  (withFinally
    (catchDb (cmSeq (execSQL insertFails) (execSQL commitFails))
      (cmRaise (DbErr.http 500)))
    (cmSeq closeCursor closeConn)) openState

/-- `list_addresses` (main.py 111-158): count query, data query, then the two
closes — with no try/finally around the queries. -/
def listConnTrace (countFails dataFails : Bool) : Except DbErr Unit × ConnState :=
  (cmSeq (execSQL countFails) (cmSeq (execSQL dataFails)
    (cmSeq closeCursor closeConn))) openState

/-- `get_address` (main.py 205-221): select, close both, then the 404 check. -/
def getConnTrace (selectFails found : Bool) : Except DbErr Unit × ConnState :=
  (cmSeq (execSQL selectFails) (cmSeq closeCursor (cmSeq closeConn
    (if found then cmPure () else cmRaise (DbErr.http 404))))) openState

/-- `update_address` (main.py 223-273): select; close-then-404 when absent;
close-then-412 when the ETag is stale; else update, commit, close. -/
def updateConnTrace (selectFails found stale updateFails commitFails : Bool) :
    Except DbErr Unit × ConnState :=
  (cmSeq (execSQL selectFails)
    (if !found then cmSeq closeCursor (cmSeq closeConn (cmRaise (DbErr.http 404)))
     else if stale then cmSeq closeCursor (cmSeq closeConn (cmRaise (DbErr.http 412)))
     else cmSeq (execSQL updateFails) (cmSeq (execSQL commitFails)
       (cmSeq closeCursor closeConn)))) openState

/-- `delete_address` (main.py 275-293): select, close both, then the 404 check. -/
def deleteConnTrace (selectFails found : Bool) : Except DbErr Unit × ConnState :=
  (cmSeq (execSQL selectFails) (cmSeq closeCursor (cmSeq closeConn
    (if found then cmPure () else cmRaise (DbErr.http 404))))) openState

/-! ### The GeoJSON exporter and its call site (dynamically typed) -/

/-- Python values as they flow through `addresses_to_features`: the connection
object is one of them, since the call site passes it. -/
inductive Py where
  | pnone : Py
  | pstr (s : String) : Py
  | pnum (q : ℚ) : Py
  | plist (xs : List Py) : Py
  | pdict (kvs : List (String × Py)) : Py
  | pconn : Py

/-- `d.get(k)`: `None` when missing. -/
def pyGet (d : Py) (k : String) : Py :=
  match d with
  | .pdict kvs =>
      match kvs.find? (fun p => p.1 == k) with
      | some p => p.2
      | none => .pnone
  | _ => .pnone

/-- `d.get(k, default)`. -/
def pyGetD (d : Py) (k : String) (dflt : Py) : Py :=
  match d with
  | .pdict kvs =>
      match kvs.find? (fun p => p.1 == k) with
      | some p => p.2
      | none => dflt
  | _ => dflt

/-- The default placeholder coordinates of `address_to_feature`
(`lon=-73.961967, lat=40.808040`); the floats are constants that are only
passed through, modelled as rationals. -/
def lonDefault : ℚ := -73.961967

/-- Default latitude. -/
def latDefault : ℚ := 40.808040

/-- `address_to_feature` (models/address.py 205-228): a GeoJSON Feature dict with
a Point geometry at the given coordinates and renamed/defaulted properties. -/
def address_to_feature (address lon lat : Py) : Py :=
  .pdict [("type", .pstr "Feature"),
    ("geometry", .pdict [("type", .pstr "Point"), ("coordinates", .plist [lon, lat])]),
    ("properties", .pdict [
      ("name", pyGet address "name"),
      ("address", pyGet address "street"),
      ("unit", pyGet address "unit"),
      ("city", pyGet address "city"),
      ("state", pyGet address "state"),
      ("country", pyGet address "country"),
      ("postalCode", pyGet address "postal_code"),
      ("size", pyGetD address "size" (.pstr "5x5")),
      ("pricePerDay", pyGetD address "pricePerDay" (.pstr "15"))])]

/-- Python iteration: lists, dicts (their keys) and strings iterate; a database
connection object does not, so `for addr in addresses` raises `TypeError`. -/
def pyIter : Py → Except String (List Py)
  | .plist xs => .ok xs
  | .pdict kvs => .ok (kvs.map (fun p => Py.pstr p.1))
  | .pstr s => .ok (s.data.map (fun c => Py.pstr (String.mk [c])))
  | _ => .error "TypeError: object is not iterable"

/-- `addresses_to_features` (models/address.py 231-234): the comprehension
`[address_to_feature(addr, lon, lat) for addr in addresses]`. -/
def addresses_to_features (addresses lon lat : Py) : Except String Py :=
  (pyIter addresses).map (fun xs => Py.plist (xs.map (fun a => address_to_feature a lon lat)))

/-- The call site in `list_addresses` (main.py 199):
`addresses_to_features(conn, [item.model_dump() for item in items])` — the
(already closed) connection is passed as `addresses`, the item list lands in
the `lon` parameter, and `lat` keeps its default. -/
def listAddressesGeoFeatures (itemDumps : List Py) : Except String Py :=
  addresses_to_features Py.pconn (Py.plist itemDumps) (Py.pnum latDefault)

/-! ### Claim theorems -/

/-- C7 counterexample: in `list_addresses`, when the COUNT query raises a storage
error, the handler propagates the exception without closing either the cursor or
the connection — there is no try/finally around the queries — contradicting
"every handler closes its connection on every exit path, including exceptions". -/
theorem C7_counterexample :
    (listConnTrace true false).2.connClosed = false ∧
    (listConnTrace true false).2.cursorClosed = false ∧
    (listConnTrace true false).1 = Except.error DbErr.dbError :=
  ⟨rfl, rfl, rfl⟩

/-- C7 (amended): `create_address` closes cursor and connection on every exit
path, including storage exceptions, thanks to its `finally`; the other handlers
(`list`, `get`, `update`, `delete`) close them on every non-exceptional exit —
success, not-found, precondition-failed — but leak both when a storage call
raises (their close flags equal "no storage call failed before the closes"). -/
theorem C7_connection_release : ∀ (i c s f st u m : Bool),
    (createConnTrace i c).2.connClosed = true ∧
    (createConnTrace i c).2.cursorClosed = true ∧
    (listConnTrace i c).2.connClosed = (!i && !c) ∧
    (listConnTrace i c).2.cursorClosed = (!i && !c) ∧
    (getConnTrace s f).2.connClosed = !s ∧
    (getConnTrace s f).2.cursorClosed = !s ∧
    (updateConnTrace s f st u m).2.connClosed = (!s && (!f || st || (!u && !m))) ∧
    (updateConnTrace s f st u m).2.cursorClosed = (!s && (!f || st || (!u && !m))) ∧
    (deleteConnTrace s f).2.connClosed = !s ∧
    (deleteConnTrace s f).2.cursorClosed = !s := by
  decide

/-- A one-row resource dict as the GeoJSON call site would dump it. -/
def c2item : Py :=
  Py.pdict [("id", Py.pstr "a1"), ("name", Py.pstr "Bob"), ("street", Py.pstr "1 Main"),
    ("unit", Py.pnone), ("city", Py.pstr "X"), ("state", Py.pnone),
    ("postal_code", Py.pnone), ("country", Py.pstr "US")]

/-- Applied to an actual list, the exporter yields exactly one feature per
address (the spec's intended behavior). -/
theorem addresses_to_features_on_list (addrs : List Py) (lon lat : Py) :
    addresses_to_features (Py.plist addrs) lon lat =
      Except.ok (Py.plist (addrs.map (fun a => address_to_feature a lon lat))) := rfl

/-- C2: the GeoJSON path of `list_addresses` can never produce a
FeatureCollection — the call `addresses_to_features(conn, [item.model_dump() for
item in items])` passes the (closed) DB connection as the `addresses` argument,
so iterating it raises `TypeError`; the claim's expected behavior (one Point
feature per row, at the default coordinates) only appears when the list is
passed as `addresses`, as the second and third conjuncts show. -/
theorem C2_geojson_call_crashes :
    listAddressesGeoFeatures [c2item] = Except.error "TypeError: object is not iterable" ∧
    addresses_to_features (Py.plist [c2item]) (Py.pnum lonDefault) (Py.pnum latDefault) =
      Except.ok (Py.plist [address_to_feature c2item (Py.pnum lonDefault) (Py.pnum latDefault)]) ∧
    pyGet (address_to_feature c2item (Py.pnum lonDefault) (Py.pnum latDefault)) "geometry" =
      Py.pdict [("type", Py.pstr "Point"),
        ("coordinates", Py.plist [Py.pnum lonDefault, Py.pnum latDefault])] := by
  refine ⟨rfl, rfl, ?_⟩
  rfl

theorem getJob_setJob (jobs : List (String × JobRec)) (k : String) (v : JobRec) :
    getJob (setJob jobs k v) k = some v := by
  unfold setJob
  by_cases h : (jobs.find? (fun p => p.1 == k)).isSome
  · rw [if_pos h]
    induction jobs with
    | nil => simp at h
    | cons p ps ih =>
      cases hpk : (p.1 == k) with
      | true =>
        rw [List.map_cons, if_pos hpk]
        unfold getJob
        rw [List.find?_cons_of_pos _ (by simp)]
        rfl
      | false =>
        rw [List.map_cons, if_neg (by simp [hpk])]
        rw [List.find?_cons_of_neg _ (by simp [hpk])] at h
        unfold getJob
        rw [List.find?_cons_of_neg _ (by simp [hpk])]
        exact ih h
  · rw [if_neg h]
    induction jobs with
    | nil => simp [getJob]
    | cons p ps ih =>
      cases hpk : (p.1 == k) with
      | true =>
        exact absurd (by simp [hpk]) h
      | false =>
        rw [List.find?_cons_of_neg _ (by simp [hpk])] at h
        unfold getJob
        rw [List.cons_append, List.find?_cons_of_neg _ (by simp [hpk])]
        exact ih h

/-- C6: DELETE on a missing id answers 404 and creates no job, schedules
nothing, touches nothing; on an existing id it stores a fresh `pending` job,
answers 202 with `Location: /jobs/{job_id}` and the job id in the body, appends
the deletion to the background-task queue and leaves the rows untouched — the
deletion is only scheduled, never performed, before the response. -/
theorem C6_delete_schedules_job (db : List Row) (jobs : List (String × JobRec))
    (tasks : List (String × String)) (addressId jobId : String) :
    (findRow db addressId = none →
      delete_address db jobs tasks addressId jobId = ⟨404, none, none, db, jobs, tasks⟩) ∧
    (∀ stored, findRow db addressId = some stored →
      (delete_address db jobs tasks addressId jobId).status = 202 ∧
      (delete_address db jobs tasks addressId jobId).location = some ("/jobs/" ++ jobId) ∧
      (delete_address db jobs tasks addressId jobId).body =
        some (jobId, "accepted", "/jobs/" ++ jobId) ∧
      getJob (delete_address db jobs tasks addressId jobId).jobs jobId =
        some ⟨"pending", addressId⟩ ∧
      (delete_address db jobs tasks addressId jobId).db = db ∧
      (delete_address db jobs tasks addressId jobId).tasks = tasks ++ [(jobId, addressId)]) := by
  constructor
  · intro hnone
    unfold delete_address
    rw [hnone]
  · intro stored hsome
    unfold delete_address
    rw [hsome]
    exact ⟨rfl, rfl, rfl, getJob_setJob jobs jobId _, rfl, rfl⟩

/-- A sample row for the witnesses. -/
def wRow : Row := ⟨"a1", some "Bob", some "1 Main", none, some "X", none, none, some "US"⟩

/-- Witness for C6: both branches at concrete inputs. -/
theorem C6_delete_schedules_job_witness :
    (findRow [wRow] "zz" = none ∧
      delete_address [wRow] [] [] "zz" "j1" = ⟨404, none, none, [wRow], [], []⟩) ∧
    (findRow [wRow] "a1" = some wRow ∧
      (delete_address [wRow] [] [] "a1" "j1").status = 202 ∧
      getJob (delete_address [wRow] [] [] "a1" "j1").jobs "j1" = some ⟨"pending", "a1"⟩ ∧
      (delete_address [wRow] [] [] "a1" "j1").db = [wRow]) := by
  refine ⟨⟨by decide, (C6_delete_schedules_job [wRow] [] [] "zz" "j1").1 (by decide)⟩,
    ⟨by decide, ?_, ?_, ?_⟩⟩
  · exact ((C6_delete_schedules_job [wRow] [] [] "a1" "j1").2 wRow (by decide)).1
  · exact ((C6_delete_schedules_job [wRow] [] [] "a1" "j1").2 wRow (by decide)).2.2.2.1
  · exact ((C6_delete_schedules_job [wRow] [] [] "a1" "j1").2 wRow (by decide)).2.2.2.2.1

/-- C3: the `last` link uses `last_offset`, which equals
`max(0, ((total-1)//limit)*limit)` for positive totals and 0 otherwise; for
`total ≤ limit` it is 0, and for `total > limit` it is the greatest multiple of
`limit` strictly below `total`. -/
theorem C3_last_offset (F : Filters) (limit offset total : Nat) (hl : 1 ≤ limit) :
    Link.mk "last" ("/addresses" ++ make_qs F limit (last_offset total limit)) ∈
      pagLinks F limit offset total ∧
    (total = 0 → last_offset total limit = 0) ∧
    (0 < total → last_offset total limit = max 0 ((total - 1) / limit * limit)) ∧
    (total ≤ limit → last_offset total limit = 0) ∧
    (limit < total →
      (∃ k, last_offset total limit = limit * k) ∧
      last_offset total limit < total ∧
      (∀ m : Nat, limit * m < total → limit * m ≤ last_offset total limit)) := by
  refine ⟨?_, ?_, ?_, ?_, ?_⟩
  · simp [pagLinks]
  · intro h
    simp [last_offset, h]
  · intro h
    simp [last_offset, h]
  · intro h
    unfold last_offset
    rcases Nat.eq_zero_or_pos total with h0 | h0
    · simp [h0]
    · rw [if_pos h0]
      have hz : (total - 1) / limit = 0 := Nat.div_eq_of_lt (by omega)
      simp [hz]
  · intro h
    have h0 : 0 < total := by omega
    have he : last_offset total limit = (total - 1) / limit * limit := by
      unfold last_offset
      rw [if_pos h0]
      exact Nat.max_eq_right (Nat.zero_le _)
    refine ⟨⟨(total - 1) / limit, by rw [he, Nat.mul_comm]⟩, ?_, ?_⟩
    · rw [he]
      have := Nat.div_mul_le_self (total - 1) limit
      omega
    · intro m hm
      rw [he]
      have hm1 : m * limit ≤ total - 1 := by
        rw [Nat.mul_comm]
        omega
      have hdiv : m ≤ (total - 1) / limit := (Nat.le_div_iff_mul_le (by omega)).mpr hm1
      calc limit * m = m * limit := Nat.mul_comm _ _
        _ ≤ (total - 1) / limit * limit := Nat.mul_le_mul_right _ hdiv

/-- All-absent filters, for witnesses. -/
def noFilters : Filters := ⟨none, none, none, none, none, none, none⟩

/-- Witness for C3 at limit 10, offset 0, total 25. -/
theorem C3_last_offset_witness :
    (1 ≤ 10) ∧
    (Link.mk "last" ("/addresses" ++ make_qs noFilters 10 (last_offset 25 10)) ∈
      pagLinks noFilters 10 0 25 ∧
    (25 = 0 → last_offset 25 10 = 0) ∧
    (0 < 25 → last_offset 25 10 = max 0 ((25 - 1) / 10 * 10)) ∧
    (25 ≤ 10 → last_offset 25 10 = 0) ∧
    (10 < 25 →
      (∃ k, last_offset 25 10 = 10 * k) ∧
      last_offset 25 10 < 25 ∧
      (∀ m : Nat, 10 * m < 25 → 10 * m ≤ last_offset 25 10))) :=
  ⟨by decide, C3_last_offset noFilters 10 0 25 (by decide)⟩

/-- C4: the `prev` link is present iff `offset > 0` and then points at
`max(0, offset-limit)`; the `next` link is present iff `offset+limit < total`
and then points at `offset+limit`. -/
theorem C4_prev_next_links (F : Filters) (limit offset total : Nat) :
    (Link.mk "prev" ("/addresses" ++ make_qs F limit (max 0 (offset - limit))) ∈
        pagLinks F limit offset total ↔ 0 < offset) ∧
    ((∃ h, Link.mk "prev" h ∈ pagLinks F limit offset total) ↔ 0 < offset) ∧
    (Link.mk "next" ("/addresses" ++ make_qs F limit (offset + limit)) ∈
        pagLinks F limit offset total ↔ offset + limit < total) ∧
    ((∃ h, Link.mk "next" h ∈ pagLinks F limit offset total) ↔ offset + limit < total) := by
  unfold pagLinks
  split_ifs with h1 h2 h2 <;>
    simp [Link.mk.injEq, h1, h2]

/-- Replace an empty-string filter value by an absent one. -/
def normField (x : Option String) : Option String :=
  match x with
  | some s => if s = "" then none else some s
  | none => none

/-- Normalize every filter of a request this way. -/
def normFilters (F : Filters) : Filters :=
  ⟨normField F.name, normField F.street, normField F.unit, normField F.city,
   normField F.state, normField F.postal_code, normField F.country⟩

theorem filterClause_norm (col : String) (x : Option String) :
    filterClause col (normField x) = filterClause col x := by
  cases x with
  | none => rfl
  | some s =>
    by_cases hs : s = "" <;> simp [normField, filterClause, hs]

theorem qsPart_norm (key : String) (x : Option String) :
    qsPart key (normField x) = qsPart key x := by
  cases x with
  | none => rfl
  | some s =>
    by_cases hs : s = "" <;> simp [normField, qsPart, hs]

theorem filterMatch_norm (x : Option String) (col : Option String) :
    filterMatch (normField x) col = filterMatch x col := by
  cases x with
  | none => rfl
  | some s =>
    by_cases hs : s = "" <;> simp [normField, filterMatch, hs]

theorem rowMatches_norm (F : Filters) : rowMatches (normFilters F) = rowMatches F := by
  funext r
  simp [rowMatches, normFilters, filterMatch_norm]

theorem make_qs_norm (F : Filters) (limit offset : Nat) :
    make_qs (normFilters F) limit offset = make_qs F limit offset := by
  simp [make_qs, normFilters, qsPart_norm]

/-- C10: a filter supplied as the empty string behaves exactly like an absent
filter — it is dropped from the SQL predicate and its parameters, from the
query strings of every pagination link, and the whole `list_addresses` response
is unchanged. -/
theorem C10_empty_filter_like_absent (F : Filters) (db : List Row) (limit offset : Nat) :
    whereClause (normFilters F) = whereClause F ∧
    make_qs (normFilters F) limit offset = make_qs F limit offset ∧
    list_addresses db (normFilters F) limit offset = list_addresses db F limit offset := by
  refine ⟨?_, make_qs_norm F limit offset, ?_⟩
  · simp [whereClause, normFilters, filterClause_norm]
  · unfold list_addresses
    rw [rowMatches_norm]
    unfold pagLinks
    simp [make_qs_norm]

/-- A one-row database and an update payload for the C1 instances. -/
def c1upd : AddressUpdate := ⟨some (some "Alice"), none, none, none, none, none, none⟩

/-- C1 counterexample: a PATCH that carries an If-Match header whose value `""`
differs from the stored row's ETag (ETags are 64 hex characters) is *not*
rejected with 412: `if if_match and if_match != current_etag` treats the empty
header value as absent, so the handler proceeds and updates the row. -/
theorem C1_counterexample :
    "" ≠ compute_etag (rowPairs wRow ++ [("links", linksJ wRow.id)]) ∧
    (update_address [wRow] "a1" c1upd (some "")).1 ≠ Except.error 412 ∧
    (update_address [wRow] "a1" c1upd (some "")).2 ≠ [wRow] := by
  refine ⟨?_, ?_, ?_⟩
  · intro h
    have h2 := congrArg String.length h
    rw [compute_etag_length] at h2
    simp at h2
  · have h1 : (update_address [wRow] "a1" c1upd (some "")).1 =
        Except.ok (rowPairs (mergedRow wRow c1upd) ++ [("links", linksJ "a1")],
          compute_etag (rowPairs (mergedRow wRow c1upd) ++ [("links", linksJ "a1")])) := rfl
    rw [h1]
    intro h
    exact Except.noConfusion h
  · decide

/-- C1 (amended): a PATCH whose If-Match header is present, *non-empty* and
different from the ETag computed over the stored row with its links always
returns 412 and leaves the stored rows unchanged (no UPDATE is issued); the
empty-string If-Match value is the single exception, treated as an absent
header (see the counterexample). -/
theorem C1_patch_stale_etag (db : List Row) (addressId : String) (upd : AddressUpdate)
    (s : String) (stored : Row) (hfound : findRow db addressId = some stored)
    (hne : s ≠ "")
    (hstale : s ≠ compute_etag (rowPairs stored ++ [("links", linksJ stored.id)])) :
    update_address db addressId upd (some s) = (Except.error 412, db) := by
  unfold update_address
  rw [hfound]
  split
  · rename_i heq
    exact absurd heq (by simp)
  · rename_i result heq
    injection heq with heq2
    subst heq2
    split
    · rfl
    · rename_i hcond
      exfalso
      apply hcond
      show (!(s == "") &&
        !(s == compute_etag (rowPairs stored ++ [("links", linksJ stored.id)]))) = true
      rw [beq_eq_false_iff_ne.mpr hne, beq_eq_false_iff_ne.mpr hstale]
      rfl

/-- Witness for C1 (amended), with the stale value "x" (length 1 ≠ 64). -/
theorem C1_patch_stale_etag_witness :
    (findRow [wRow] "a1" = some wRow ∧ "x" ≠ "" ∧
      "x" ≠ compute_etag (rowPairs wRow ++ [("links", linksJ wRow.id)])) ∧
    update_address [wRow] "a1" c1upd (some "x") = (Except.error 412, [wRow]) := by
  have hst : "x" ≠ compute_etag (rowPairs wRow ++ [("links", linksJ wRow.id)]) := by
    intro h
    have h2 := congrArg String.length h
    rw [compute_etag_length] at h2
    exact absurd h2 (by decide)
  exact ⟨⟨by decide, by decide, hst⟩,
    C1_patch_stale_etag [wRow] "a1" c1upd "x" wRow (by decide) (by decide) hst⟩

/-- C9: `get_address` computes its ETag over the stored row with the two links
appended, exactly the dict `update_address` hashes for its If-Match comparison;
consequently a PATCH presenting the ETag just returned by GET for the unchanged
row is never rejected with 412 — it proceeds to the UPDATE and returns ok. -/
theorem C9_get_etag_accepted_by_patch (db : List Row) (addressId : String)
    (stored : Row) (upd : AddressUpdate) (hfound : findRow db addressId = some stored) :
    get_address db addressId =
      Except.ok (rowPairs stored ++ [("links", linksJ stored.id)],
        compute_etag (rowPairs stored ++ [("links", linksJ stored.id)])) ∧
    (update_address db addressId upd
        (some (compute_etag (rowPairs stored ++ [("links", linksJ stored.id)])))).1 ≠
      Except.error 412 ∧
    (∃ res, (update_address db addressId upd
        (some (compute_etag (rowPairs stored ++ [("links", linksJ stored.id)])))).1 =
      Except.ok res) := by
  have hfull : update_address db addressId upd
      (some (compute_etag (rowPairs stored ++ [("links", linksJ stored.id)]))) =
      (Except.ok (rowPairs (mergedRow stored upd) ++ [("links", linksJ addressId)],
        compute_etag (rowPairs (mergedRow stored upd) ++ [("links", linksJ addressId)])),
       db.map (fun r =>
         if r.id == addressId then
           { r with
             name := (mergedRow stored upd).name
             street := (mergedRow stored upd).street
             unit := (mergedRow stored upd).unit
             city := (mergedRow stored upd).city
             state := (mergedRow stored upd).state
             postal_code := (mergedRow stored upd).postal_code
             country := (mergedRow stored upd).country }
         else r)) := by
    unfold update_address
    rw [hfound]
    split
    · rename_i heq
      exact absurd heq (by simp)
    · rename_i result heq
      injection heq with heq2
      subst heq2
      split
      · rename_i hcond
        exfalso
        have hc2 : (!(compute_etag (rowPairs stored ++ [("links", linksJ stored.id)]) == "") &&
            !(compute_etag (rowPairs stored ++ [("links", linksJ stored.id)]) ==
              compute_etag (rowPairs stored ++ [("links", linksJ stored.id)]))) = true := hcond
        rw [beq_self_eq_true] at hc2
        simp at hc2
      · rfl
  refine ⟨?_, ?_, ?_⟩
  · unfold get_address
    rw [hfound]
  · rw [hfull]
    intro h
    exact Except.noConfusion h
  · rw [hfull]
    exact ⟨_, rfl⟩

/-- Witness for C9 at a concrete database. -/
theorem C9_get_etag_accepted_by_patch_witness :
    findRow [wRow] "a1" = some wRow ∧
    get_address [wRow] "a1" =
      Except.ok (rowPairs wRow ++ [("links", linksJ wRow.id)],
        compute_etag (rowPairs wRow ++ [("links", linksJ wRow.id)])) ∧
    (update_address [wRow] "a1" c1upd
        (some (compute_etag (rowPairs wRow ++ [("links", linksJ wRow.id)])))).1 ≠
      Except.error 412 := by
  have h := C9_get_etag_accepted_by_patch [wRow] "a1" wRow c1upd (by decide)
  exact ⟨by decide, h.1, h.2.1⟩

/-- C5 (amended): `compute_etag` is a pure function of resource content —
serialization sorts keys, so the key order of the dict is irrelevant — and
changing a field value changes the serialized payload that is hashed (values of
address resources are scalar; non-scalar fields such as `links` are compared as
equal).  Injectivity of the *digest* itself is unattainable: see the
counterexample. -/
theorem C5_etag_content_function :
    (∀ r1 r2 : List (String × J), List.Perm r1 r2 → (r1.map Prod.fst).Nodup →
      compute_etag r1 = compute_etag r2) ∧
    (∀ r1 r2 : List (String × J), (r1.map Prod.fst).Nodup →
      List.Forall₂ fieldsAlign r1 r2 → r1 ≠ r2 →
      dumpsVal (J.obj r1) ≠ dumpsVal (J.obj r2)) := by
  constructor
  · intro r1 r2 hperm hnd
    exact congrArg (fun l => sha256hex (utf8Bytes l)) (dumpsVal_obj_perm hperm hnd)
  · intro r1 r2 hnd halign hne hEq
    exact hne (dumpsVal_obj_inj hnd halign hEq)

/-- A row whose name is `n` copies of `a`, for the pigeonhole argument. -/
def pigeonRow (n : Nat) : Row :=
  { wRow with name := some (String.mk (List.replicate n 'a')) }

/-- C5 counterexample: the claim "for every two resources differing in some
field value, the ETags differ" is false — `compute_etag` maps infinitely many
resources into the finite set of 256-bit digests, so two resources with the
same keys but different `name` values share an ETag. -/
theorem C5_counterexample :
    ∃ r1 r2 : List (String × J),
      r1.map Prod.fst = r2.map Prod.fst ∧
      (∃ k v1 v2, (k, v1) ∈ r1 ∧ (k, v2) ∈ r2 ∧ v1 ≠ v2) ∧
      compute_etag r1 = compute_etag r2 := by
  obtain ⟨a, b, hab, heq⟩ := Finite.exists_ne_map_eq_of_infinite
    (fun n : ℕ => (⟨sha256Nat (utf8Bytes (dumpsVal (J.obj (rowPairs (pigeonRow n))))),
      sha256Nat_lt _⟩ : Fin (2 ^ 256)))
  refine ⟨rowPairs (pigeonRow a), rowPairs (pigeonRow b), rfl, ?_, ?_⟩
  · refine ⟨"name", J.str (String.mk (List.replicate a 'a')),
      J.str (String.mk (List.replicate b 'a')), ?_, ?_, ?_⟩
    · simp [rowPairs, pigeonRow, optJ, wRow]
    · simp [rowPairs, pigeonRow, optJ, wRow]
    · intro h
      apply hab
      have h2 : String.mk (List.replicate a 'a') = String.mk (List.replicate b 'a') := by
        injection h
      have h3 : List.replicate a 'a' = List.replicate b 'a' := congrArg String.data h2
      have h4 := congrArg List.length h3
      simpa using h4
  · have hv : sha256Nat (utf8Bytes (dumpsVal (J.obj (rowPairs (pigeonRow a))))) =
        sha256Nat (utf8Bytes (dumpsVal (J.obj (rowPairs (pigeonRow b))))) :=
      congrArg Fin.val heq
    exact congrArg hex64 hv

/-- Witness for C5 (amended): a two-field dict in both key orders on the
determinism part, and two one-field dicts with different scalar values on the
payload part. -/
theorem C5_etag_content_function_witness :
    (List.Perm [(("b" : String), J.null), ("a", J.str "x")]
        [(("a" : String), J.str "x"), ("b", J.null)] ∧
      (([(("b" : String), J.null), ("a", J.str "x")]).map Prod.fst).Nodup ∧
      compute_etag [("b", J.null), ("a", J.str "x")] =
        compute_etag [("a", J.str "x"), ("b", J.null)]) ∧
    ((([(("k" : String), J.str "x")]).map Prod.fst).Nodup ∧
      List.Forall₂ fieldsAlign [(("k" : String), J.str "x")] [(("k" : String), J.str "y")] ∧
      [(("k" : String), J.str "x")] ≠ [(("k" : String), J.str "y")] ∧
      dumpsVal (J.obj [(("k" : String), J.str "x")]) ≠
        dumpsVal (J.obj [(("k" : String), J.str "y")])) := by
  have hperm : List.Perm [(("b" : String), J.null), ("a", J.str "x")]
      [(("a" : String), J.str "x"), ("b", J.null)] :=
    List.Perm.swap ("a", J.str "x") ("b", J.null) []
  have hnd1 : (([(("b" : String), J.null), ("a", J.str "x")]).map Prod.fst).Nodup := by
    decide
  have hnd2 : ((([(("k" : String), J.str "x")]).map Prod.fst)).Nodup := by decide
  have halign : List.Forall₂ fieldsAlign [(("k" : String), J.str "x")]
      [(("k" : String), J.str "y")] :=
    List.Forall₂.cons ⟨rfl, Or.inl ⟨rfl, rfl⟩⟩ List.Forall₂.nil
  have hne : [(("k" : String), J.str "x")] ≠ [(("k" : String), J.str "y")] := by
    intro h
    injection h with h1 h2
    injection h1 with hk hv
    injection hv with hs
    exact absurd hs (by decide)
  exact ⟨⟨hperm, hnd1, C5_etag_content_function.1 _ _ hperm hnd1⟩,
    ⟨hnd2, halign, hne, C5_etag_content_function.2 _ _ hnd2 halign hne⟩⟩
